import Mathlib

/-
Verification of the optical-density computation and Gaussian profile-fitting
pipeline of the absorption-imaging analyser (`Classes/Analysis.py`, class
`AnalyseOD`).

Embedding conventions:
* Images and OD maps are `Mat`: a height, a width, and a total function
  `ℕ → ℕ → ℚ` giving the pixel value at (row, column).  Pixel values are exact
  rationals standing in for the floats of the source; float transcendentals
  (`np.log10`, `np.exp`, `np.sqrt`, `np.cos`, `np.sin`) are abstract function
  parameters (`lg`, `exq`, `sqq`, `cosq`, `sinq`), so every theorem below holds
  for the float versions pointwise wherever float arithmetic is exact.
* `scipy.optimize.curve_fit` is an external solver; it is a function parameter
  (`cf`, `cf2`) receiving exactly the data the source passes to it (the x-grid
  `np.arange(len(values))` is determined by the value list, so only the value
  list is passed) and returning the optimal parameters together with the
  diagonal of the covariance matrix (the only part of `pcov` the source reads).
* numpy scalar indexing with a possibly negative index is `pyIdx`; Python
  `int(x / 2)` (truncation toward zero) is `halfTrunc`; numpy basic slicing
  `a[r0:r1, c0:c1]` keeps the indices of `range` that fall in `[r0, r1)`
  (`sliceIdxList`), which matches numpy's clamping of slice bounds.
* In ℚ, division by zero yields 0 where numpy produces inf/NaN (with a runtime
  warning, not an exception); the theorems that touch the degenerate
  normalization case state this explicitly.
-/

namespace AbsImaging

/-- A 2D array of rationals: `h` rows, `w` columns, entry `d i j` at row `i`,
column `j`.  Entries outside the valid range are junk and never read by the
embedded operations. -/
@[ext]
structure Mat where
  h : ℕ
  w : ℕ
  d : ℕ → ℕ → ℚ

/-- A region of interest `[x_start, x_end, y_start, y_end]`, as stored in
`self.analys_ROI` / `self.normalization_ROI`. -/
structure ROI where
  xStart : ℕ
  xEnd : ℕ
  yStart : ℕ
  yEnd : ℕ

/-- The indices of `range n` kept by the Python slice `[a:b]`:
all `i < n` with `a ≤ i < b`.  (numpy clamps slice bounds to the array, and an
empty range results when `b ≤ a`.) -/
def sliceIdxList (n a b : ℕ) : List ℕ :=
  (List.range n).filter (fun i => decide (a ≤ i ∧ i < b))

/-- numpy scalar indexing: a negative index counts from the end. -/
def pyIdx (n : ℕ) (i : ℤ) : ℕ :=
  (if i < 0 then i + n else i).toNat

/-- Python `int(z / 2)`: divide by two truncating toward zero. -/
def halfTrunc (z : ℤ) : ℤ :=
  if 0 ≤ z then ((z.toNat / 2 : ℕ) : ℤ) else -(((-z).toNat / 2 : ℕ) : ℤ)

/-- The floor value `1e-6` used by every in-place zero clamp in the source. -/
def floorQ : ℚ := 1 / 1000000

/-- All entries of a matrix, row-major (the order of `np.ravel`). -/
def entriesList (m : Mat) : List ℚ :=
  ((List.range m.h).map (fun i => (List.range m.w).map (fun j => m.d i j))).flatten

/-- `np.amax` over a whole (nonempty) matrix, as a fold of `max` seeded with
the first entry. -/
def matMax (m : Mat) : ℚ :=
  (entriesList m).foldl max (m.d 0 0)

/-- The mean of `dark[y_start:y_end, x_start:x_end]` (`np.mean(roi)` in
`calculate_OD`).  For an empty region numpy gives NaN; here `0/0 = 0`. -/
def normMean (dark : Mat) (nroi : ROI) : ℚ :=
  (((sliceIdxList dark.h nroi.yStart nroi.yEnd).map (fun i =>
      ((sliceIdxList dark.w nroi.xStart nroi.xEnd).map (fun j => dark.d i j)).sum)).sum)
  / (((sliceIdxList dark.h nroi.yStart nroi.yEnd).length
        * (sliceIdxList dark.w nroi.xStart nroi.xEnd).length : ℕ) : ℚ)

/-- `AnalyseOD.calculate_OD`, lines 35-55 of `Analysis.py`, as one function:
normalize both images by the mean of the dark-image normalization region,
mask the pixels where either normalized image is zero, take `lg` of the
bright/dark ratio on the mask (0 elsewhere), then overwrite every exactly-zero
pixel with the maximum over the whole map.  `lg` abstracts `np.log10`. -/
def calculate_OD (lg : ℚ → ℚ) (dark bright : Mat) (nroi : ROI) : Mat :=
  let m := normMean dark nroi
  let od : ℕ → ℕ → ℚ := fun i j =>
    if dark.d i j / m ≠ 0 ∧ bright.d i j / m ≠ 0 then
      lg ((bright.d i j / m) / (dark.d i j / m))
    else 0
  let maxOD := matMax ⟨dark.h, dark.w, od⟩
  ⟨dark.h, dark.w, fun i j => if od i j = 0 then maxOD else od i j⟩

/-- The map `calculate_OD` has built just before the zero→max substitution
step (the "raw OD" of the spec): the per-pixel log-ratio on the validity mask,
0 on masked-out pixels. -/
def rawOD (lg : ℚ → ℚ) (dark bright : Mat) (nroi : ROI) : Mat :=
  let m := normMean dark nroi
  ⟨dark.h, dark.w, fun i j =>
    if dark.d i j / m ≠ 0 ∧ bright.d i j / m ≠ 0 then
      lg ((bright.d i j / m) / (dark.d i j / m))
    else 0⟩

/-- The post-processing step of `calculate_OD` (lines 52-53): replace every
exactly-zero pixel by the maximum over the whole map. -/
def zeroSubst (m : Mat) : Mat :=
  ⟨m.h, m.w, fun i j => if m.d i j = 0 then matMax m else m.d i j⟩

/-- In-place zero clamp `a[a == 0] = 1e-6` on a whole array. -/
def clampZeros (m : Mat) : Mat :=
  ⟨m.h, m.w, fun i j => if m.d i j = 0 then floorQ else m.d i j⟩

/-- In-place zero clamp restricted to row `r` (mutation through the view
`OD[r, :]`). -/
def clampZerosRow (m : Mat) (r : ℕ) : Mat :=
  ⟨m.h, m.w, fun i j => if i = r ∧ m.d i j = 0 then floorQ else m.d i j⟩

/-- In-place zero clamp restricted to column `c` (mutation through the view
`OD[:, c]`). -/
def clampZerosCol (m : Mat) (c : ℕ) : Mat :=
  ⟨m.h, m.w, fun i j => if j = c ∧ m.d i j = 0 then floorQ else m.d i j⟩

/-- The state of `self.dark_image` after `calculate_OD` returns: the statement
`self.dark_image[self.dark_image == 0] = 1e-6` (line 46) overwrites the stored
dark image in place. -/
def calculate_OD_darkAfter (dark : Mat) : Mat :=
  clampZeros dark

-- Basic facts about the fold-max used by `matMax`.

lemma le_foldl_max (l : List ℚ) (a : ℚ) : a ≤ l.foldl max a := by
  induction l generalizing a with
  | nil => exact le_refl a
  | cons x t ih => exact le_trans (le_max_left a x) (ih (max a x))

lemma mem_le_foldl_max (l : List ℚ) : ∀ a x : ℚ, x ∈ l → x ≤ l.foldl max a := by
  induction l with
  | nil => intro a x hx; cases hx
  | cons y t ih =>
    intro a x hx
    rcases List.mem_cons.mp hx with h | h
    · subst h
      exact le_trans (le_max_right a x) (le_foldl_max t (max a x))
    · exact ih (max a y) x h

lemma foldl_max_le (l : List ℚ) (a b : ℚ) (ha : a ≤ b) (hl : ∀ x ∈ l, x ≤ b) :
    l.foldl max a ≤ b := by
  induction l generalizing a with
  | nil => exact ha
  | cons y t ih =>
    exact ih (max a y) (max_le ha (hl y (List.mem_cons_self y t)))
      (fun x hx => hl x (List.mem_cons_of_mem y hx))

lemma mem_entriesList (m : Mat) (i j : ℕ) (hi : i < m.h) (hj : j < m.w) :
    m.d i j ∈ entriesList m := by
  unfold entriesList
  rw [List.mem_flatten]
  refine ⟨(List.range m.w).map (fun j => m.d i j), ?_, ?_⟩
  · exact List.mem_map.mpr ⟨i, List.mem_range.mpr hi, rfl⟩
  · exact List.mem_map.mpr ⟨j, List.mem_range.mpr hj, rfl⟩

lemma entriesList_cases (m : Mat) (x : ℚ) (hx : x ∈ entriesList m) :
    ∃ i j, i < m.h ∧ j < m.w ∧ x = m.d i j := by
  unfold entriesList at hx
  rw [List.mem_flatten] at hx
  obtain ⟨row, hrow, hxrow⟩ := hx
  obtain ⟨i, hi, rfl⟩ := List.mem_map.mp hrow
  obtain ⟨j, hj, rfl⟩ := List.mem_map.mp hxrow
  exact ⟨i, j, List.mem_range.mp hi, List.mem_range.mp hj, rfl⟩

/-- The maximum of a matrix that is zero everywhere except one positive cell
is that cell's value. -/
lemma matMax_single_pos (m : Mat) (i0 j0 : ℕ) (hi0 : i0 < m.h) (hj0 : j0 < m.w)
    (hpos : 0 < m.d i0 j0)
    (hzero : ∀ i, i < m.h → ∀ j, j < m.w → ¬(i = i0 ∧ j = j0) → m.d i j = 0) :
    matMax m = m.d i0 j0 := by
  have hle : ∀ i, i < m.h → ∀ j, j < m.w → m.d i j ≤ m.d i0 j0 := by
    intro i hi j hj
    by_cases hij : i = i0 ∧ j = j0
    · rw [hij.1, hij.2]
    · rw [hzero i hi j hj hij]
      exact le_of_lt hpos
  have hh0 : 0 < m.h := lt_of_le_of_lt (Nat.zero_le i0) hi0
  have hw0 : 0 < m.w := lt_of_le_of_lt (Nat.zero_le j0) hj0
  refine le_antisymm ?_ ?_
  · refine foldl_max_le _ _ _ (hle 0 hh0 0 hw0) ?_
    intro x hx
    obtain ⟨i, j, hi, hj, rfl⟩ := entriesList_cases m x hx
    exact hle i hi j hj
  · exact mem_le_foldl_max _ _ _ (mem_entriesList m i0 j0 hi0 hj0)

/-- C1, counterexample input: `dark = [[1, 2]]`, `bright = [[1, 1]]`,
normalization region the single pixel (0,0) (mean 1), and log abstracted as
`fun q => q - 1` (so that the log of 1 is 0).  The log-ratio step yields
exactly one nonzero cell, `-1/2` at (0,1). -/
def lgC1 : ℚ → ℚ := fun q => q - 1

def darkC1 : Mat := ⟨1, 2, fun _ j => if j = 1 then 2 else 1⟩

def brightC1 : Mat := ⟨1, 2, fun _ _ => 1⟩

def nroiC1 : ROI := ⟨0, 1, 0, 1⟩

/-- C1 (counterexample): for this input the log-ratio step yields exactly one
nonzero cell, whose value `-1/2` is negative; the whole-map maximum is then 0,
so the zero cell (0,0) of the returned map stays 0 and does not receive the
nonzero cell's value. -/
theorem calcOD_zero_subst_neg_cell :
    (rawOD lgC1 darkC1 brightC1 nroiC1).d 0 0 = 0
    ∧ (rawOD lgC1 darkC1 brightC1 nroiC1).d 0 1 = -(1 / 2)
    ∧ (calculate_OD lgC1 darkC1 brightC1 nroiC1).d 0 0 = 0
    ∧ (0 : ℚ) ≠ -(1 / 2) := by
  refine ⟨?_, ?_, ?_, ?_⟩ <;>
    norm_num [calculate_OD, rawOD, matMax, entriesList, normMean, sliceIdxList,
      darkC1, brightC1, nroiC1, lgC1, List.range_succ, max_def]

/-- C1 (amended): the returned map is exactly the raw log-ratio map with every
exactly-zero pixel replaced by the whole-map maximum; and for a raw map whose
log-ratio step yields exactly one nonzero cell whose value is positive, every
zero cell of the output equals that cell's value. -/
theorem calcOD_zero_subst_max :
    (∀ (lg : ℚ → ℚ) (dark bright : Mat) (nroi : ROI),
      calculate_OD lg dark bright nroi = zeroSubst (rawOD lg dark bright nroi))
    ∧ (∀ (m : Mat) (i0 j0 : ℕ), i0 < m.h → j0 < m.w → 0 < m.d i0 j0 →
        (∀ i, i < m.h → ∀ j, j < m.w → ¬(i = i0 ∧ j = j0) → m.d i j = 0) →
        ∀ i, i < m.h → ∀ j, j < m.w → m.d i j = 0 →
          (zeroSubst m).d i j = m.d i0 j0) := by
  constructor
  · intro lg dark bright nroi
    rfl
  · intro m i0 j0 hi0 hj0 hpos hzero i _ j _ hijzero
    show (if m.d i j = 0 then matMax m else m.d i j) = m.d i0 j0
    rw [if_pos hijzero]
    exact matMax_single_pos m i0 j0 hi0 hj0 hpos hzero

/-- A single-positive-cell map for the C1 witness: `[[0, 3]]`. -/
def matW1 : Mat := ⟨1, 2, fun _ j => if j = 1 then 3 else 0⟩

/-- C1 witness: the amended theorem applied at a concrete input. -/
theorem calcOD_zero_subst_max_witness :
    calculate_OD lgC1 darkC1 brightC1 nroiC1
        = zeroSubst (rawOD lgC1 darkC1 brightC1 nroiC1)
    ∧ (zeroSubst matW1).d 0 0 = matW1.d 0 1 :=
  ⟨calcOD_zero_subst_max.1 lgC1 darkC1 brightC1 nroiC1,
   calcOD_zero_subst_max.2 matW1 0 1 (by norm_num [matW1]) (by norm_num [matW1])
     (by norm_num [matW1])
     (by
       intro i hi j hj hne
       simp only [matW1] at hi hj ⊢
       interval_cases i
       interval_cases j <;> simp_all)
     0 (by norm_num [matW1]) 0 (by norm_num [matW1]) (by norm_num [matW1])⟩

/-- `calculate_OD` is the zero→max substitution applied to the raw log-ratio
map (shared decomposition helper). -/
lemma calculate_OD_eq_zeroSubst (lg : ℚ → ℚ) (dark bright : Mat) (nroi : ROI) :
    calculate_OD lg dark bright nroi = zeroSubst (rawOD lg dark bright nroi) :=
  rfl

/-- Pointwise scaling of an image by a constant. -/
def scaleMat (c : ℚ) (m : Mat) : Mat :=
  ⟨m.h, m.w, fun i j => c * m.d i j⟩

/-- Scaling the dark image scales the normalization-region mean. -/
lemma normMean_scale (c : ℚ) (dark : Mat) (nroi : ROI) :
    normMean (scaleMat c dark) nroi = c * normMean dark nroi := by
  unfold normMean scaleMat
  simp only [List.sum_map_mul_left]
  rw [mul_div_assoc]

/-- C3: scaling both input images by the same positive constant leaves the
returned OD map unchanged, in exact arithmetic: the normalization-region mean
scales by the same factor, so the normalized images, the validity mask, the
log-ratios, the whole-map maximum and the zero→max substitution all agree. -/
theorem calcOD_scale_invariant (lg : ℚ → ℚ) (c : ℚ) (dark bright : Mat) (nroi : ROI)
    (hc : 0 < c) (_hsh : dark.h = bright.h ∧ dark.w = bright.w)
    (_hm : normMean dark nroi ≠ 0) :
    calculate_OD lg (scaleMat c dark) (scaleMat c bright) nroi
      = calculate_OD lg dark bright nroi := by
  have hraw : rawOD lg (scaleMat c dark) (scaleMat c bright) nroi
      = rawOD lg dark bright nroi := by
    unfold rawOD
    refine Mat.ext rfl rfl ?_
    funext i j
    have hm2 := normMean_scale c dark nroi
    simp only [scaleMat] at hm2 ⊢
    rw [hm2]
    simp only [mul_div_mul_left _ _ hc.ne']
  rw [calculate_OD_eq_zeroSubst, calculate_OD_eq_zeroSubst, hraw]

/-- C3 witness: the scale-invariance theorem applied at a concrete input. -/
theorem calcOD_scale_invariant_witness :
    (0 : ℚ) < 2 ∧ normMean darkC1 nroiC1 ≠ 0
    ∧ calculate_OD lgC1 (scaleMat 2 darkC1) (scaleMat 2 brightC1) nroiC1
        = calculate_OD lgC1 darkC1 brightC1 nroiC1 :=
  ⟨by norm_num,
   by norm_num [normMean, sliceIdxList, darkC1, nroiC1, List.range_succ],
   calcOD_scale_invariant lgC1 2 darkC1 brightC1 nroiC1 (by norm_num) ⟨rfl, rfl⟩
     (by norm_num [normMean, sliceIdxList, darkC1, nroiC1, List.range_succ])⟩

/-- C9: when the dark and bright images agree pixelwise (and the log of 1 is
0, as for `log10`), the raw OD before the zero→max substitution is zero at
every pixel: on the validity mask the ratio is `x / x = 1`, off the mask the
default is 0. -/
theorem rawOD_eq_images_zero (lg : ℚ → ℚ) (dark bright : Mat) (nroi : ROI)
    (hlg : lg 1 = 0) (heq : ∀ i j, dark.d i j = bright.d i j)
    (_hm : normMean dark nroi ≠ 0) :
    ∀ i j, (rawOD lg dark bright nroi).d i j = 0 := by
  intro i j
  simp only [rawOD]
  rw [← heq i j]
  by_cases hq : dark.d i j / normMean dark nroi = 0
  · rw [if_neg (fun hcon => hcon.1 hq)]
  · rw [if_pos ⟨hq, hq⟩, div_self hq, hlg]

/-- C9 witness: the theorem applied to a concrete pair of equal images. -/
theorem rawOD_eq_images_zero_witness :
    lgC1 1 = 0 ∧ normMean brightC1 nroiC1 ≠ 0
    ∧ (rawOD lgC1 brightC1 brightC1 nroiC1).d 0 0 = 0 :=
  ⟨by norm_num [lgC1],
   by norm_num [normMean, sliceIdxList, brightC1, nroiC1, List.range_succ],
   rawOD_eq_images_zero lgC1 brightC1 brightC1 nroiC1 (by norm_num [lgC1])
     (fun _ _ => rfl)
     (by norm_num [normMean, sliceIdxList, brightC1, nroiC1, List.range_succ]) 0 0⟩

/-- The identity, standing in for the abstract log in counterexamples. -/
def idQ : ℚ → ℚ := fun q => q

/-- The OD computation the C4 claim describes: every exactly-zero pixel of the
dark image replaced by the floor `1e-6` before normalization and ratio, so
that the log-ratio at such a pixel is taken against the floored dark value.
This definition follows the claim's words; it is compared against `rawOD`,
which follows the source. -/
def flooredRatioOD (lg : ℚ → ℚ) (dark bright : Mat) (nroi : ROI) : Mat :=
  rawOD lg (clampZeros dark) bright nroi

/-- C4 counterexample input: `dark = [[1, 0]]`, `bright = [[1, 5]]`,
normalization region the pixel (0,0) (mean 1, unaffected by the clamp). -/
def darkC4 : Mat := ⟨1, 2, fun _ j => if j = 1 then 0 else 1⟩

def brightC4 : Mat := ⟨1, 2, fun _ j => if j = 1 then 5 else 1⟩

/-- C4 (counterexample): at the zero-dark pixel (0,1) the source's raw OD is 0
(the pixel is excluded by the validity mask), whereas a log-ratio taken
against the floored dark value, as the claim describes, would give
`lg (5 / 1e-6) = 5000000` (with the log abstracted as the identity).  The
in-place clamp of line 46 runs after the normalized images are computed and
therefore never feeds the ratio. -/
theorem calcOD_floor_clamp_no_effect :
    (rawOD idQ darkC4 brightC4 nroiC1).d 0 1 = 0
    ∧ (flooredRatioOD idQ darkC4 brightC4 nroiC1).d 0 1 = 5000000
    ∧ (0 : ℚ) ≠ 5000000 := by
  refine ⟨?_, ?_, ?_⟩ <;>
    norm_num [flooredRatioOD, rawOD, clampZeros, floorQ, normMean, sliceIdxList,
      darkC4, brightC4, nroiC1, idQ, List.range_succ]

/-- C4 (amended): `calculate_OD` does overwrite every exactly-zero pixel of
the stored dark image with `1e-6`, but the log-ratio never uses the floored
value: a pixel where the dark image is zero has normalized dark value zero, is
excluded by the validity mask, and its raw OD is 0. -/
theorem calcOD_zero_dark_masked (lg : ℚ → ℚ) (dark bright : Mat) (nroi : ROI)
    (i j : ℕ) (hz : dark.d i j = 0) :
    (rawOD lg dark bright nroi).d i j = 0
    ∧ (calculate_OD_darkAfter dark).d i j = floorQ := by
  constructor
  · simp only [rawOD, hz, zero_div]
    exact if_neg (fun hcon => hcon.1 rfl)
  · simp only [calculate_OD_darkAfter, clampZeros]
    rw [if_pos hz]

/-- C4 witness: the amended theorem applied at the concrete zero-dark pixel. -/
theorem calcOD_zero_dark_masked_witness :
    darkC4.d 0 1 = 0
    ∧ ((rawOD idQ darkC4 brightC4 nroiC1).d 0 1 = 0
        ∧ (calculate_OD_darkAfter darkC4).d 0 1 = floorQ) :=
  ⟨by norm_num [darkC4],
   calcOD_zero_dark_masked idQ darkC4 brightC4 nroiC1 0 1 (by norm_num [darkC4])⟩

/-- C6, degenerate inputs: an empty normalization ROI, and a normalization
region whose mean is zero. -/
def darkC6a : Mat := ⟨1, 1, fun _ _ => 1⟩

def nroiC6a : ROI := ⟨0, 0, 0, 0⟩

def darkC6b : Mat := ⟨1, 2, fun _ j => if j = 0 then 0 else 5⟩

def nroiC6b : ROI := ⟨0, 1, 0, 1⟩

/-- C6: `calculate_OD` contains no check of the normalization region: on an
empty normalization ROI and on a region of zero mean it silently returns a
map instead of failing.  (In the embedding's exact arithmetic division by the
zero mean gives 0 everywhere; in numpy it gives inf/NaN values with only a
runtime warning — either way no `DegenerateNormalization` error exists
anywhere in the code and the function returns normally.) -/
theorem calcOD_degenerate_norm_no_error :
    normMean darkC6a nroiC6a = 0
    ∧ (calculate_OD idQ darkC6a darkC6a nroiC6a).d 0 0 = 0
    ∧ normMean darkC6b nroiC6b = 0
    ∧ (calculate_OD idQ darkC6b darkC6b nroiC6b).d 0 0 = 0 := by
  refine ⟨?_, ?_, ?_, ?_⟩ <;>
    norm_num [calculate_OD, matMax, entriesList, normMean, sliceIdxList,
      darkC6a, nroiC6a, darkC6b, nroiC6b, idQ, List.range_succ, max_def]

lemma mem_sliceIdxList (n a b i : ℕ) (h : i ∈ sliceIdxList n a b) : a ≤ i ∧ i < b := by
  unfold sliceIdxList at h
  rw [List.mem_filter] at h
  exact of_decide_eq_true h.2

lemma sliceIdxList_empty (n a b : ℕ) (h : b ≤ a) : sliceIdxList n a b = [] := by
  unfold sliceIdxList
  rw [List.filter_eq_nil_iff]
  intro x _
  simp only [decide_eq_true_eq]
  omega

/-- An in-bounds Python slice `[a:b]` keeps exactly the indices `a, …, b-1`. -/
lemma sliceIdxList_eq_range' : ∀ n a b : ℕ, b ≤ n → sliceIdxList n a b = List.range' a (b - a) := by
  intro n
  induction n with
  | zero =>
    intro a b hb
    have hb0 : b = 0 := Nat.le_zero.mp hb
    subst hb0
    simp [sliceIdxList, Nat.zero_sub]
  | succ n ih =>
    intro a b hb
    rcases eq_or_lt_of_le hb with heq | hlt
    · subst heq
      unfold sliceIdxList
      rw [List.range_succ, List.filter_append]
      have hmain : List.filter (fun i => decide (a ≤ i ∧ i < n + 1)) (List.range n)
          = sliceIdxList n a n := by
        unfold sliceIdxList
        apply List.filter_congr
        intro x hx
        have hxn : x < n := List.mem_range.mp hx
        simp only [decide_eq_decide]
        omega
      rw [hmain, ih a n (le_refl n)]
      by_cases han : a ≤ n
      · have hone : List.filter (fun i => decide (a ≤ i ∧ i < n + 1)) [n] = [n] := by
          simp [List.filter, han]
        rw [hone]
        have h1 : n + 1 - a = (n - a) + 1 := by omega
        rw [h1, List.range'_concat]
        have h2 : a + 1 * (n - a) = n := by omega
        rw [h2]
      · have hzero : List.filter (fun i => decide (a ≤ i ∧ i < n + 1)) [n] = [] := by
          simp [List.filter, han]
        rw [hzero, List.append_nil]
        have h1 : n - a = 0 := by omega
        have h2 : n + 1 - a = 0 := by omega
        rw [h1, h2]
    · have hbn : b ≤ n := Nat.lt_succ_iff.mp hlt
      unfold sliceIdxList
      rw [List.range_succ, List.filter_append]
      have hnb : ¬n < b := by omega
      have hzero : List.filter (fun i => decide (a ≤ i ∧ i < b)) [n] = [] := by
        simp [List.filter, hnb]
      rw [hzero, List.append_nil]
      exact ih a b hbn

/-- The analysis-ROI sub-array `OD[roi_y_end:roi_y_start, roi_x_start:roi_x_end]`
extracted by `fit_cloud_profile_gaussian2D` (and `fit_cloud_profile_gaussian1D`),
as a list of rows.  Note the swapped `y` bounds, exactly as in the source. -/
def roiSubarray (od : Mat) (roi : ROI) : List (List ℚ) :=
  (sliceIdxList od.h roi.yEnd roi.yStart).map (fun i =>
    (sliceIdxList od.w roi.xStart roi.xEnd).map (fun j => od.d i j))

/-- The absorption cross-section constant `2.907e-13` (m²). -/
def crossSection : ℚ := 2907 / 10 ^ 16

/-- The pixel pitch constant `8.46e-6` (m). -/
def pixelSize : ℚ := 846 / 10 ^ 8

/-- The atom count of `fit_cloud_profile_gaussian2D` (lines 123-125):
`density = roi_OD / cross_section; number_atoms = np.sum(density * (8.46e-6)**2)`. -/
def number_atoms (od : Mat) (roi : ROI) : ℚ :=
  ((roiSubarray od roi).map (fun row =>
    (row.map (fun v => v / crossSection * pixelSize ^ 2)).sum)).sum

/-- The rotated 2D Gaussian model `gaussian_2d` of the source, with `np.cos`,
`np.sin`, `np.exp` abstracted. -/
def gaussian2dQ (cosq sinq exq : ℚ → ℚ) (x y A x0 y0 sx sy th : ℚ) : ℚ :=
  let a := (cosq th) ^ 2 / (2 * sx ^ 2) + (sinq th) ^ 2 / (2 * sy ^ 2)
  let b := -(sinq (2 * th)) / (4 * sx ^ 2) + (sinq (2 * th)) / (4 * sy ^ 2)
  let c := (sinq th) ^ 2 / (2 * sx ^ 2) + (cosq th) ^ 2 / (2 * sy ^ 2)
  A * exq (-(a * (x - x0) ^ 2 + 2 * b * (x - x0) * (y - y0) + c * (y - y0) ^ 2))

/-- Result of `fit_cloud_profile_gaussian2D`: the atom count, the fitted
surface (row-major, as `ravel` orders it), the six parameter uncertainties,
and — observationally — the state of the caller's OD array after the in-place
zero clamp `OD[OD == 0] = 1e-6` of line 141. -/
structure Fit2DOut where
  numberAtoms : ℚ
  prof : List ℚ
  unc : ℚ × ℚ × ℚ × ℚ × ℚ × ℚ
  odAfter : Mat

/-- `AnalyseOD.fit_cloud_profile_gaussian2D` (lines 102-155).  `cf2` abstracts
`scipy.optimize.curve_fit` on the meshgrid data: it receives every pixel as
`((x, y), OD value)` in `ravel` order together with the initial guess
`(np.max(OD), w/2, h/2, 400, 400, 0)`, and returns the optimal parameters and
the diagonal of the covariance matrix. -/
def fit2D (cosq sinq exq sqq : ℚ → ℚ)
    (cf2 : List ((ℚ × ℚ) × ℚ) → ℚ × ℚ × ℚ × ℚ × ℚ × ℚ →
      (ℚ × ℚ × ℚ × ℚ × ℚ × ℚ) × (ℚ × ℚ × ℚ × ℚ × ℚ × ℚ))
    (od : Mat) (roi : ROI) : Fit2DOut :=
  let data := ((List.range od.h).map (fun (i : ℕ) =>
    (List.range od.w).map (fun (j : ℕ) => (((j : ℚ), (i : ℚ)), od.d i j)))).flatten
  let guess := (matMax od, (od.w : ℚ) / 2, (od.h : ℚ) / 2, (400 : ℚ), (400 : ℚ), (0 : ℚ))
  let f := cf2 data guess
  ⟨number_atoms od roi,
   data.map (fun p => gaussian2dQ cosq sinq exq p.1.1 p.1.2 f.1.1 f.1.2.1 f.1.2.2.1
     f.1.2.2.2.1 f.1.2.2.2.2.1 f.1.2.2.2.2.2),
   (sqq f.2.1, sqq f.2.2.1, sqq f.2.2.2.1, sqq f.2.2.2.2.1, sqq f.2.2.2.2.2.1,
     sqq f.2.2.2.2.2.2),
   clampZeros od⟩

/-- C2: the atom count returned by `fit_cloud_profile_gaussian2D` is the sum,
over every pixel of the sub-rectangle the source extracts for the analysis ROI
(rows `roi_y_end … roi_y_start - 1`, columns `roi_x_start … roi_x_end - 1`),
of `(OD value / 2.907e-13) * (8.46e-6)^2`; and doubling every OD value inside
that sub-rectangle doubles the atom count. -/
theorem fit2D_atom_count_sum :
    (∀ (cosq sinq exq sqq : ℚ → ℚ) cf2 (od : Mat) (roi : ROI),
      roi.yStart ≤ od.h → roi.xEnd ≤ od.w →
      (fit2D cosq sinq exq sqq cf2 od roi).numberAtoms
        = ((List.range' roi.yEnd (roi.yStart - roi.yEnd)).map (fun i =>
            ((List.range' roi.xStart (roi.xEnd - roi.xStart)).map (fun j =>
              od.d i j / crossSection * pixelSize ^ 2)).sum)).sum)
    ∧ (∀ (cosq sinq exq sqq : ℚ → ℚ) cf2 (od od₂ : Mat) (roi : ROI),
        od₂.h = od.h → od₂.w = od.w →
        (∀ i, i < roi.yStart → ∀ j, j < roi.xEnd →
          roi.yEnd ≤ i → roi.xStart ≤ j → od₂.d i j = 2 * od.d i j) →
        (fit2D cosq sinq exq sqq cf2 od₂ roi).numberAtoms
          = 2 * (fit2D cosq sinq exq sqq cf2 od roi).numberAtoms) := by
  constructor
  · intro cosq sinq exq sqq cf2 od roi hy hx
    show number_atoms od roi = _
    unfold number_atoms roiSubarray
    rw [sliceIdxList_eq_range' od.h roi.yEnd roi.yStart hy,
      sliceIdxList_eq_range' od.w roi.xStart roi.xEnd hx]
    simp [List.map_map, Function.comp_def]
  · intro cosq sinq exq sqq cf2 od od₂ roi hh hw hdbl
    show number_atoms od₂ roi = 2 * number_atoms od roi
    unfold number_atoms roiSubarray
    rw [hh, hw, List.map_map, List.map_map, ← List.sum_map_mul_left]
    apply congrArg List.sum
    apply List.map_congr_left
    intro i hi
    obtain ⟨hi1, hi2⟩ := mem_sliceIdxList _ _ _ _ hi
    simp only [Function.comp_def]
    rw [List.map_map, List.map_map, ← List.sum_map_mul_left]
    apply congrArg List.sum
    apply List.map_congr_left
    intro j hj
    obtain ⟨hj1, hj2⟩ := mem_sliceIdxList _ _ _ _ hj
    simp only [Function.comp_def]
    rw [hdbl i hi2 j hj2 hi1 hj1]
    ring

/-- Inputs for the C2 and C10 witnesses: a 2×2 OD map `[[1,2],[3,4]]`, a ROI
with the `y` bounds in the source's (reversed) order covering the whole map,
and trivial stand-ins for the external solver. -/
def odW2 : Mat := ⟨2, 2, fun i j => 2 * i + j + 1⟩

def roiW2 : ROI := ⟨0, 2, 2, 0⟩

def cf2Z : List ((ℚ × ℚ) × ℚ) → ℚ × ℚ × ℚ × ℚ × ℚ × ℚ →
    (ℚ × ℚ × ℚ × ℚ × ℚ × ℚ) × (ℚ × ℚ × ℚ × ℚ × ℚ × ℚ) :=
  fun _ _ => ((0, 0, 0, 0, 0, 0), (0, 0, 0, 0, 0, 0))

/-- C2 witness: the atom-count theorem applied at a concrete map and ROI. -/
theorem fit2D_atom_count_sum_witness :
    roiW2.yStart ≤ odW2.h ∧ roiW2.xEnd ≤ odW2.w
    ∧ (fit2D idQ idQ idQ idQ cf2Z odW2 roiW2).numberAtoms
        = ((List.range' roiW2.yEnd (roiW2.yStart - roiW2.yEnd)).map (fun i =>
            ((List.range' roiW2.xStart (roiW2.xEnd - roiW2.xStart)).map (fun j =>
              odW2.d i j / crossSection * pixelSize ^ 2)).sum)).sum
    ∧ (fit2D idQ idQ idQ idQ cf2Z (scaleMat 2 odW2) roiW2).numberAtoms
        = 2 * (fit2D idQ idQ idQ idQ cf2Z odW2 roiW2).numberAtoms :=
  ⟨by decide, by decide,
   fit2D_atom_count_sum.1 idQ idQ idQ idQ cf2Z odW2 roiW2 (by decide) (by decide),
   fit2D_atom_count_sum.2 idQ idQ idQ idQ cf2Z odW2 (scaleMat 2 odW2) roiW2 rfl rfl
     (fun _ _ _ _ _ _ => rfl)⟩

/-- C10: when the analysis ROI satisfies the intended coordinate order
`y_start < y_end`, the sub-array `OD[roi_y_end:roi_y_start, …]` extracted by
`fit_cloud_profile_gaussian2D` is empty (the slice start is at or past the
slice stop), so the returned atom count is 0 regardless of the OD values. -/
theorem fit2D_reversed_roi_empty (cosq sinq exq sqq : ℚ → ℚ)
    (cf2 : List ((ℚ × ℚ) × ℚ) → ℚ × ℚ × ℚ × ℚ × ℚ × ℚ →
      (ℚ × ℚ × ℚ × ℚ × ℚ × ℚ) × (ℚ × ℚ × ℚ × ℚ × ℚ × ℚ))
    (od : Mat) (roi : ROI) (h : roi.yStart < roi.yEnd) :
    roiSubarray od roi = []
    ∧ (fit2D cosq sinq exq sqq cf2 od roi).numberAtoms = 0 := by
  have hempty : sliceIdxList od.h roi.yEnd roi.yStart = [] :=
    sliceIdxList_empty _ _ _ (le_of_lt h)
  constructor
  · unfold roiSubarray
    rw [hempty]
    rfl
  · show number_atoms od roi = 0
    unfold number_atoms roiSubarray
    rw [hempty]
    rfl

/-- A ROI in the intended order `y_start < y_end`, for the C10 witness. -/
def roiW10 : ROI := ⟨0, 2, 0, 2⟩

/-- C10 witness: the empty-sub-array theorem applied at a concrete input. -/
theorem fit2D_reversed_roi_empty_witness :
    roiW10.yStart < roiW10.yEnd
    ∧ (roiSubarray odW2 roiW10 = []
        ∧ (fit2D idQ idQ idQ idQ cf2Z odW2 roiW10).numberAtoms = 0) :=
  ⟨by decide, fit2D_reversed_roi_empty idQ idQ idQ idQ cf2Z odW2 roiW10 (by decide)⟩

/-- The 1D Gaussian model of the source:
`amplitude * np.exp(-((x - mean) / stddev) ** 2 / 2)`. -/
def gaussianQ (exq : ℚ → ℚ) (A μ σ x : ℚ) : ℚ :=
  A * exq (-(((x - μ) / σ) ^ 2) / 2)

/-- `np.amax` of a list (seeded with the first element). -/
def listMax (l : List ℚ) : ℚ := l.foldl max (l.headD 0)

/-- `np.mean` of a list. -/
def listMean (l : List ℚ) : ℚ := l.sum / (l.length : ℚ)

/-- `np.std` of a list: the square root (abstracted as `sqq`) of the mean
squared deviation. -/
def listStd (sqq : ℚ → ℚ) (l : List ℚ) : ℚ :=
  sqq ((l.map (fun v => (v - listMean l) ^ 2)).sum / (l.length : ℚ))

/-- The horizontal slice fitted by `fit_cloud_profile_gaussian1D`:
`OD_x = OD[int(roi_x_end - roi_x_start), :]` (line 74), the row whose index is
the ROI width, resolved by numpy's indexing rule. -/
def OD_x (od : Mat) (roi : ROI) : List ℚ :=
  (List.range od.w).map (fun j => od.d (pyIdx od.h ((roi.xEnd : ℤ) - (roi.xStart : ℤ))) j)

/-- The vertical slice fitted by `fit_cloud_profile_gaussian1D`:
`OD_y = OD[:, int(roi_y_start - roi_y_end)]` (line 75), the column whose index
is minus the ROI height, resolved by numpy's indexing rule (negative indices
count from the end). -/
def OD_y (od : Mat) (roi : ROI) : List ℚ :=
  (List.range od.h).map (fun i => od.d i (pyIdx od.w ((roi.yStart : ℤ) - (roi.yEnd : ℤ))))

/-- The row whose zero pixels `determine_uncertainty` clamps and against which
it computes the x-axis residuals: `OD[int((roi_y_end - roi_y_start) / 2), :]`
(line 96). -/
def uncRowIdx (od : Mat) (roi : ROI) : ℕ :=
  pyIdx od.h (halfTrunc ((roi.yEnd : ℤ) - (roi.yStart : ℤ)))

/-- The column whose zero pixels `determine_uncertainty` clamps and against
which it computes the y-axis residuals:
`OD[:, int((roi_x_end - roi_x_start) / 2)]` (line 97). -/
def uncColIdx (od : Mat) (roi : ROI) : ℕ :=
  pyIdx od.w (halfTrunc ((roi.xEnd : ℤ) - (roi.xStart : ℤ)))

/-- Result of `fit_cloud_profile_gaussian1D`: the two fitted profiles, the two
uncertainty triples, and — observationally — the data slices handed to the
solver (`sliceX`, `sliceY`), the profiles the residuals are computed against
(`uncProfX`, `uncProfY`), and the state of the caller's OD array after the two
in-place zero clamps performed through the row/column views (`odAfter`). -/
structure Fit1DOut where
  profX : List ℚ
  profY : List ℚ
  uncX : ℚ × ℚ × ℚ
  uncY : ℚ × ℚ × ℚ
  sliceX : List ℚ
  sliceY : List ℚ
  uncProfX : List ℚ
  uncProfY : List ℚ
  odAfter : Mat

/-- `AnalyseOD.fit_cloud_profile_gaussian1D` (lines 57-100).  `cf` abstracts
`scipy.optimize.curve_fit` for the 1D Gaussian: it receives the data values
(the x-grid `np.arange(len(values))` is determined by them) and the initial
guess `(amax, mean, std)` of the fitted slice, and returns the optimal
parameters and the diagonal of the covariance matrix.  The x-axis uncertainty
call reads and clamps row `uncRowIdx`; the y-axis call then reads and clamps
column `uncColIdx` of the already-mutated array. -/
def fit1D (exq sqq : ℚ → ℚ)
    (cf : List ℚ → ℚ × ℚ × ℚ → (ℚ × ℚ × ℚ) × (ℚ × ℚ × ℚ))
    (od : Mat) (roi : ROI) : Fit1DOut :=
  let odx := OD_x od roi
  let ody := OD_y od roi
  let fx := cf odx (listMax odx, listMean odx, listStd sqq odx)
  let fy := cf ody (listMax ody, listMean ody, listStd sqq ody)
  let rU := uncRowIdx od roi
  let cU := uncColIdx od roi
  let profUx := (List.range od.w).map (fun j => od.d rU j)
  let od1 := clampZerosRow od rU
  let profUy := (List.range od.h).map (fun i => od1.d i cU)
  let od2 := clampZerosCol od1 cU
  ⟨(List.range od.w).map (fun j => gaussianQ exq fx.1.1 fx.1.2.1 fx.1.2.2 (j : ℚ)),
   (List.range od.h).map (fun i => gaussianQ exq fy.1.1 fy.1.2.1 fy.1.2.2 (i : ℚ)),
   (sqq fx.2.1, sqq fx.2.2.1, sqq fx.2.2.2),
   (sqq fy.2.1, sqq fy.2.2.1, sqq fy.2.2.2),
   odx, ody, profUx, profUy, od2⟩

/-- C7: the horizontal slice fitted by `fit_cloud_profile_gaussian1D` is row
`roi_x_end - roi_x_start` of the OD map and the vertical slice is column
`roi_y_start - roi_y_end` (indices resolved by numpy's rule), each taken over
the full pixel-index range of the map; consequently the fitted profiles
depend only on those slices (and the map's shape). -/
theorem fit1D_slice_indices (exq sqq : ℚ → ℚ)
    (cf : List ℚ → ℚ × ℚ × ℚ → (ℚ × ℚ × ℚ) × (ℚ × ℚ × ℚ))
    (od od' : Mat) (roi : ROI)
    (hh : od'.h = od.h) (hw : od'.w = od.w)
    (hrow : ∀ j, od'.d (pyIdx od.h ((roi.xEnd : ℤ) - (roi.xStart : ℤ))) j
      = od.d (pyIdx od.h ((roi.xEnd : ℤ) - (roi.xStart : ℤ))) j)
    (hcol : ∀ i, od'.d i (pyIdx od.w ((roi.yStart : ℤ) - (roi.yEnd : ℤ)))
      = od.d i (pyIdx od.w ((roi.yStart : ℤ) - (roi.yEnd : ℤ)))) :
    (fit1D exq sqq cf od roi).sliceX
      = (List.range od.w).map (fun j =>
          od.d (pyIdx od.h ((roi.xEnd : ℤ) - (roi.xStart : ℤ))) j)
    ∧ (fit1D exq sqq cf od roi).sliceY
      = (List.range od.h).map (fun i =>
          od.d i (pyIdx od.w ((roi.yStart : ℤ) - (roi.yEnd : ℤ))))
    ∧ (fit1D exq sqq cf od' roi).profX = (fit1D exq sqq cf od roi).profX
    ∧ (fit1D exq sqq cf od' roi).profY = (fit1D exq sqq cf od roi).profY := by
  have hx : OD_x od' roi = OD_x od roi := by
    unfold OD_x
    rw [hw, hh]
    exact List.map_congr_left (fun j _ => hrow j)
  have hy : OD_y od' roi = OD_y od roi := by
    unfold OD_y
    rw [hh, hw]
    exact List.map_congr_left (fun i _ => hcol i)
  refine ⟨rfl, rfl, ?_, ?_⟩
  · simp only [fit1D]
    rw [hx, hw]
  · simp only [fit1D]
    rw [hy, hh]

/-- Inputs for the C7 witness: two 2×2 maps that differ only at pixel (0,0),
which lies neither on the fitted row 1 nor on the fitted column 1, and a
trivial stand-in for the solver. -/
def odW7 : Mat := ⟨2, 2, fun i j => (i : ℚ) + 2 * (j : ℚ)⟩

def odW7b : Mat := ⟨2, 2, fun i j => if i = 0 ∧ j = 0 then 99 else (i : ℚ) + 2 * (j : ℚ)⟩

def roiW7 : ROI := ⟨0, 1, 0, 1⟩

def cfZ : List ℚ → ℚ × ℚ × ℚ → (ℚ × ℚ × ℚ) × (ℚ × ℚ × ℚ) :=
  fun _ _ => ((0, 0, 0), (0, 0, 0))

/-- C7 witness: the slice-index theorem applied at a concrete input (the
fitted row is `1 - 0 = 1`; the fitted column index is `0 - 1 = -1`, which
numpy resolves to column 1 of a width-2 map). -/
theorem fit1D_slice_indices_witness :
    (fit1D idQ idQ cfZ odW7 roiW7).sliceX
      = (List.range odW7.w).map (fun j =>
          odW7.d (pyIdx odW7.h ((roiW7.xEnd : ℤ) - (roiW7.xStart : ℤ))) j)
    ∧ (fit1D idQ idQ cfZ odW7 roiW7).sliceY
      = (List.range odW7.h).map (fun i =>
          odW7.d i (pyIdx odW7.w ((roiW7.yStart : ℤ) - (roiW7.yEnd : ℤ))))
    ∧ (fit1D idQ idQ cfZ odW7b roiW7).profX = (fit1D idQ idQ cfZ odW7 roiW7).profX
    ∧ (fit1D idQ idQ cfZ odW7b roiW7).profY = (fit1D idQ idQ cfZ odW7 roiW7).profY :=
  fit1D_slice_indices idQ idQ cfZ odW7 odW7b roiW7 rfl rfl
    (fun j => by norm_num [odW7, odW7b, roiW7, pyIdx])
    (fun i => by norm_num [odW7, odW7b, roiW7, pyIdx])

/-- Resolving a truncated half of a difference of naturals. -/
lemma pyIdx_halfTrunc_coe (n a b : ℕ) (h : b ≤ a) :
    pyIdx n (halfTrunc ((a : ℤ) - (b : ℤ))) = (a - b) / 2 := by
  have h1 : (a : ℤ) - (b : ℤ) = ((a - b : ℕ) : ℤ) := by omega
  rw [h1]
  unfold halfTrunc pyIdx
  rw [if_pos (Int.natCast_nonneg _), Int.toNat_natCast,
    if_neg (Int.not_lt.mpr (Int.natCast_nonneg _)), Int.toNat_natCast]

/-- C8 (amended): the profiles the residuals of `determine_uncertainty` are
computed against are taken at row `(roi_y_end - roi_y_start) / 2` (x axis)
and column `(roi_x_end - roi_x_start) / 2` (y axis) — half the ROI extent,
not the ROI midpoint; the two coincide only when the ROI starts at 0.  The
column profile is read after the row clamp has already been applied. -/
theorem fit1D_unc_profile_half_extent (exq sqq : ℚ → ℚ)
    (cf : List ℚ → ℚ × ℚ × ℚ → (ℚ × ℚ × ℚ) × (ℚ × ℚ × ℚ))
    (od : Mat) (roi : ROI)
    (hy : roi.yStart ≤ roi.yEnd) (hx : roi.xStart ≤ roi.xEnd) :
    (fit1D exq sqq cf od roi).uncProfX
      = (List.range od.w).map (fun j => od.d ((roi.yEnd - roi.yStart) / 2) j)
    ∧ (fit1D exq sqq cf od roi).uncProfY
      = (List.range od.h).map (fun i =>
          (clampZerosRow od ((roi.yEnd - roi.yStart) / 2)).d i
            ((roi.xEnd - roi.xStart) / 2)) := by
  have hr : uncRowIdx od roi = (roi.yEnd - roi.yStart) / 2 := by
    unfold uncRowIdx
    exact pyIdx_halfTrunc_coe od.h roi.yEnd roi.yStart hy
  have hc : uncColIdx od roi = (roi.xEnd - roi.xStart) / 2 := by
    unfold uncColIdx
    exact pyIdx_halfTrunc_coe od.w roi.xEnd roi.xStart hx
  constructor
  · show (List.range od.w).map (fun j => od.d (uncRowIdx od roi) j) = _
    rw [hr]
  · show (List.range od.h).map
        (fun i => (clampZerosRow od (uncRowIdx od roi)).d i (uncColIdx od roi)) = _
    rw [hr, hc]

/-- C8, counterexample input: a 4×2 map whose pixel values equal their row
index, and the analysis ROI `[0, 2, 2, 4]`.  The ROI midpoint row is
`(2 + 4) / 2 = 3`; the source instead uses row `(4 - 2) / 2 = 1`. -/
def odC8 : Mat := ⟨4, 2, fun i _ => (i : ℚ)⟩

def roiC8 : ROI := ⟨0, 2, 2, 4⟩

/-- C8 (counterexample): for this input the profile the x-axis residuals are
computed against is row 1 (`[1, 1]`), not the analysis-ROI midpoint row 3
(`[3, 3]`). -/
theorem fit1D_unc_profile_not_midpoint :
    (fit1D idQ idQ cfZ odC8 roiC8).uncProfX = [1, 1]
    ∧ (List.range odC8.w).map (fun j =>
        odC8.d ((roiC8.yStart + roiC8.yEnd) / 2) j) = [3, 3]
    ∧ ([1, 1] : List ℚ) ≠ [3, 3] := by
  refine ⟨?_, ?_, ?_⟩ <;>
    norm_num [fit1D, uncRowIdx, uncColIdx, pyIdx, halfTrunc, odC8, roiC8,
      List.range_succ]

/-- C8 witness: the amended theorem applied at the concrete input. -/
theorem fit1D_unc_profile_half_extent_witness :
    roiC8.yStart ≤ roiC8.yEnd ∧ roiC8.xStart ≤ roiC8.xEnd
    ∧ ((fit1D idQ idQ cfZ odC8 roiC8).uncProfX
        = (List.range odC8.w).map (fun j => odC8.d ((roiC8.yEnd - roiC8.yStart) / 2) j)
      ∧ (fit1D idQ idQ cfZ odC8 roiC8).uncProfY
        = (List.range odC8.h).map (fun i =>
            (clampZerosRow odC8 ((roiC8.yEnd - roiC8.yStart) / 2)).d i
              ((roiC8.xEnd - roiC8.xStart) / 2))) :=
  ⟨by decide, by decide,
   fit1D_unc_profile_half_extent idQ idQ cfZ odC8 roiC8 (by decide) (by decide)⟩

/-- C5 (counterexample): `calculate_OD` does not leave the stored dark image
unchanged, and `fit_cloud_profile_gaussian2D` does not leave the OD map it
receives unchanged: every exactly-zero pixel is overwritten with `1e-6`
(here pixel (0,1) of `dark = [[1, 0]]`, and pixel (0,0) of the all-zero map). -/
theorem operations_mutate_inputs :
    (calculate_OD_darkAfter darkC4).d 0 1 = floorQ
    ∧ darkC4.d 0 1 = 0
    ∧ floorQ ≠ 0
    ∧ (fit2D idQ idQ idQ idQ cf2Z ⟨1, 1, fun _ _ => 0⟩ roiW2).odAfter.d 0 0 = floorQ := by
  refine ⟨?_, ?_, ?_, ?_⟩ <;>
    norm_num [calculate_OD_darkAfter, clampZeros, fit2D, floorQ, darkC4]

/-- C5 (amended): each of the three operations leaves its input unchanged
except for the in-place zero clamps: `calculate_OD` overwrites the zero pixels
of the stored dark image with `1e-6`; `fit_cloud_profile_gaussian1D`
overwrites with `1e-6` the zero pixels of row `uncRowIdx` and column
`uncColIdx` of the OD map it receives (the slice views write through);
`fit_cloud_profile_gaussian2D` overwrites every zero pixel of the OD map with
`1e-6`.  In particular an input with no exactly-zero entry is unchanged. -/
theorem operations_clamp_only_zero_pixels :
    (∀ (dark : Mat) (i j : ℕ),
      (calculate_OD_darkAfter dark).d i j
        = if dark.d i j = 0 then floorQ else dark.d i j)
    ∧ (∀ (exq sqq : ℚ → ℚ) (cf : List ℚ → ℚ × ℚ × ℚ → (ℚ × ℚ × ℚ) × (ℚ × ℚ × ℚ))
        (od : Mat) (roi : ROI) (i j : ℕ),
        (fit1D exq sqq cf od roi).odAfter.d i j
          = if (i = uncRowIdx od roi ∨ j = uncColIdx od roi) ∧ od.d i j = 0
            then floorQ else od.d i j)
    ∧ (∀ (cosq sinq exq sqq : ℚ → ℚ)
        (cf2 : List ((ℚ × ℚ) × ℚ) → ℚ × ℚ × ℚ × ℚ × ℚ × ℚ →
          (ℚ × ℚ × ℚ × ℚ × ℚ × ℚ) × (ℚ × ℚ × ℚ × ℚ × ℚ × ℚ))
        (od : Mat) (roi : ROI) (i j : ℕ),
        (fit2D cosq sinq exq sqq cf2 od roi).odAfter.d i j
          = if od.d i j = 0 then floorQ else od.d i j)
    ∧ (∀ dark : Mat, (∀ i j, dark.d i j ≠ 0) → calculate_OD_darkAfter dark = dark) := by
  have hf : floorQ ≠ 0 := by norm_num [floorQ]
  refine ⟨?_, ?_, ?_, ?_⟩
  · intro dark i j
    rfl
  · intro exq sqq cf od roi i j
    show (clampZerosCol (clampZerosRow od (uncRowIdx od roi)) (uncColIdx od roi)).d i j = _
    simp only [clampZerosCol, clampZerosRow]
    by_cases hz : od.d i j = 0
    · by_cases hr : i = uncRowIdx od roi
      · rw [if_pos (show i = uncRowIdx od roi ∧ od.d i j = 0 from ⟨hr, hz⟩),
          if_neg (show ¬(j = uncColIdx od roi ∧ floorQ = 0) from fun hcon => hf hcon.2),
          if_pos (show (i = uncRowIdx od roi ∨ j = uncColIdx od roi) ∧ od.d i j = 0
            from ⟨Or.inl hr, hz⟩)]
      · rw [if_neg (show ¬(i = uncRowIdx od roi ∧ od.d i j = 0) from fun hcon => hr hcon.1)]
        by_cases hc : j = uncColIdx od roi
        · rw [if_pos (show j = uncColIdx od roi ∧ od.d i j = 0 from ⟨hc, hz⟩),
            if_pos (show (i = uncRowIdx od roi ∨ j = uncColIdx od roi) ∧ od.d i j = 0
              from ⟨Or.inr hc, hz⟩)]
        · rw [if_neg (show ¬(j = uncColIdx od roi ∧ od.d i j = 0) from fun hcon => hc hcon.1),
            if_neg (show ¬((i = uncRowIdx od roi ∨ j = uncColIdx od roi) ∧ od.d i j = 0)
              from fun hcon => hcon.1.elim hr hc)]
    · rw [if_neg (show ¬(i = uncRowIdx od roi ∧ od.d i j = 0) from fun hcon => hz hcon.2),
        if_neg (show ¬(j = uncColIdx od roi ∧ od.d i j = 0) from fun hcon => hz hcon.2),
        if_neg (show ¬((i = uncRowIdx od roi ∨ j = uncColIdx od roi) ∧ od.d i j = 0)
          from fun hcon => hz hcon.2)]
  · intro cosq sinq exq sqq cf2 od roi i j
    rfl
  · intro dark hnz
    refine Mat.ext rfl rfl ?_
    funext i j
    show (if dark.d i j = 0 then floorQ else dark.d i j) = dark.d i j
    rw [if_neg (hnz i j)]

/-- C5 witness: the amended theorem applied at concrete inputs. -/
theorem operations_clamp_only_zero_pixels_witness :
    (calculate_OD_darkAfter darkC4).d 0 1 = (if darkC4.d 0 1 = 0 then floorQ else darkC4.d 0 1)
    ∧ (fit1D idQ idQ cfZ odC8 roiC8).odAfter.d 0 0
        = (if (0 = uncRowIdx odC8 roiC8 ∨ 0 = uncColIdx odC8 roiC8) ∧ odC8.d 0 0 = 0
          then floorQ else odC8.d 0 0)
    ∧ (fit2D idQ idQ idQ idQ cf2Z odW2 roiW2).odAfter.d 0 0
        = (if odW2.d 0 0 = 0 then floorQ else odW2.d 0 0)
    ∧ calculate_OD_darkAfter brightC1 = brightC1 :=
  ⟨operations_clamp_only_zero_pixels.1 darkC4 0 1,
   operations_clamp_only_zero_pixels.2.1 idQ idQ cfZ odC8 roiC8 0 0,
   operations_clamp_only_zero_pixels.2.2.1 idQ idQ idQ idQ cf2Z odW2 roiW2 0 0,
   operations_clamp_only_zero_pixels.2.2.2 brightC1 (fun _ _ => by norm_num [brightC1])⟩

end AbsImaging
